import Mathlib

/-!
# Verification of the Synthesizer core (`src/Synthesizer.hpp`)

Shallow embedding of the parts of the synthesizer header that the spec's
claims are about:

* the ADSR envelope `envelope::adsr::get_amplitude`;
* the engine mixing pass `base::sample` over the note pool;
* the step sequencer `sequencer::update` (and the `note` constructor).

The C++ floating type `fwave_t` is `double`; we model it with `ℚ`.  All
arithmetic in the embedded functions is `+ - * /` and comparisons, which `ℚ`
reproduces exactly, except that division by zero yields `0` in `ℚ` while it
yields `±inf`/NaN for `double`; theorems that would otherwise depend on a
division by zero carry the corresponding nonzero-divisor hypothesis.  The
literal `0.01` is the exact rational `1/100` here (the `double` literal is
the nearest binary float, which none of the claims distinguishes) and is
written `1 / 100`.

`uint32_t` quantities are modelled as `ℕ` with an explicit `% 2 ^ 32` at the
two places the C++ performs 32-bit arithmetic (`beats * sub_beats`,
`++currentBeat`) and at the `uint32_t` conversion of `notes.size()`.

Virtual dispatch on `inst::base*` is modelled by abstracting over a type `ι`
of instruments together with a dispatch function
`sound : ι → ℚ → note ι → ℚ × Bool` (the return value pairs the rendered
sample with the `note_finished` out-parameter); a possibly null
`inst::base*` is `Option ι`.
-/

namespace synth

/-- Embeds `synth::note` (the data fields of the C++ struct). `channel` is
the possibly-null `inst::base*` back-reference, modelled as `Option ι`. -/
structure note (ι : Type) where
  id : ℤ
  «on» : ℚ
  off : ℚ
  active : Bool
  channel : Option ι
deriving DecidableEq

/-- Embeds the `note::note()` constructor: zeroes every field, `active`
false, null channel. -/
def note.init {ι : Type} : note ι :=
  { id := 0, «on» := 0, off := 0, active := false, channel := none }

/-- Embeds the parameter fields of `envelope::adsr`. -/
structure adsr where
  attackTime : ℚ
  decayTime : ℚ
  sustainAmplitude : ℚ
  releaseTime : ℚ
  startAmplitude : ℚ
deriving DecidableEq

/-- Embeds the `envelope::adsr::adsr()` constructor defaults
(`0.1, 0.1, 1.0, 0.2, 1.0`). -/
def adsr.init : adsr :=
  { attackTime := 1 / 10, decayTime := 1 / 10, sustainAmplitude := 1,
    releaseTime := 1 / 5, startAmplitude := 1 }

/-- The attack/decay/sustain piecewise value that
`envelope::adsr::get_amplitude` computes from a note age `lifeTime`.  The
C++ writes this block twice (once for the held branch, once to obtain the
release base amplitude); both copies are textually identical, so we factor
it.  The three `if`s are sequential assignments to one variable initialised
to `0`: a later `if` that fires overwrites the earlier value, which the
nested `if`-chain below reproduces (the conditions of the first two are
mutually exclusive; the third is checked last). -/
def adsr.ramp (e : adsr) (lifeTime : ℚ) : ℚ :=
  let a1 := if lifeTime ≤ e.attackTime
    then lifeTime / e.attackTime * e.startAmplitude else 0
  let a2 := if e.attackTime < lifeTime ∧ lifeTime ≤ e.attackTime + e.decayTime
    then (lifeTime - e.attackTime) / e.decayTime *
      (e.sustainAmplitude - e.startAmplitude) + e.startAmplitude
    else a1
  if e.attackTime + e.decayTime < lifeTime then e.sustainAmplitude else a2

/-- Embeds `envelope::adsr::get_amplitude(time_global, time_on, time_off)`.
Held branch (`time_on > time_off`): the attack/decay/sustain ramp of the
note age.  Released branch: the ramp value at the age reached when the note
was released, linearly taken to `0` over `releaseTime` from `time_off`.
Final clamp: any value not exceeding `0.01 = 1/100` is reported as exactly
`0`.  `raw_amplitude` is the local variable `amplitude` just before the
clamp (`releaseAmplitude` is the C++ local of the same name, written out at
its two uses). -/
def adsr.raw_amplitude (e : adsr) (time_global time_on time_off : ℚ) : ℚ :=
  if time_on > time_off then
    e.ramp (time_global - time_on)
  else
    (time_global - time_off) / e.releaseTime * (-(e.ramp (time_off - time_on))) +
      e.ramp (time_off - time_on)

/-- The `return amplitude > 0.01 ? amplitude : 0.0;` of
`envelope::adsr::get_amplitude`, applied to `raw_amplitude`. -/
def adsr.get_amplitude (e : adsr) (time_global time_on time_off : ℚ) : ℚ :=
  let amplitude := e.raw_amplitude time_global time_on time_off
  if amplitude > 1 / 100 then amplitude else 0

/-- Embeds the body of the per-note loop of `base::sample`: `noteFinished`
starts `false`; if the note's channel pointer is non-null the instrument's
`sound` runs, contributing its sample and possibly setting `noteFinished`;
a set `noteFinished` clears the note's `active` flag.  Returns the
contribution added to `output` together with the note as left by the
iteration. -/
def renderNote {ι : Type} (sound : ι → ℚ → note ι → ℚ × Bool)
    (time_global : ℚ) (n : note ι) : ℚ × note ι :=
  match n.channel with
  | none => (0, n)
  | some i =>
      let r := sound i time_global n
      (r.1, if r.2 then { n with active := false } else n)

/-- Embeds `base::sample(time_global)` acting on the engine's note list
(the mutex only serialises calls and has no sequential content): every note
is processed by the loop body `renderNote`, the contributions are summed in
list order into `output`, and then `remove_if` drops the notes whose
`active` flag is false.  Returns `(output, remaining notes)`. -/
def sample {ι : Type} (sound : ι → ℚ → note ι → ℚ × Bool)
    (time_global : ℚ) (notes : List (note ι)) : ℚ × List (note ι) :=
  let processed := notes.map (renderNote sound time_global)
  ((processed.map Prod.fst).sum,
    (processed.map Prod.snd).filter (fun n => n.active))

/-- Embeds `sequencer::channel`: a possibly-null instrument pointer and the
beat pattern string (a string is its list of characters). -/
structure channel (ι : Type) where
  instrument : Option ι
  beat : List Char
deriving DecidableEq

/-- Embeds `synth::sequencer`'s data fields.  The `uint32_t` fields are `ℕ`
(32-bit wraparound is applied at the arithmetic operations). -/
structure sequencer (ι : Type) where
  beats : ℕ
  subBeats : ℕ
  currentBeat : ℕ
  totalBeats : ℕ
  tempo : ℚ
  beatTime : ℚ
  timeTotal : ℚ
  notes : List (note ι)
  channels : List (channel ι)
deriving DecidableEq

/-- Embeds the `sequencer::sequencer(tempo, beats, sub_beats)` constructor. -/
def sequencer.init {ι : Type} (tempo : ℚ) (beats sub_beats : ℕ) :
    sequencer ι :=
  { beats := beats, subBeats := sub_beats, currentBeat := 0,
    totalBeats := beats * sub_beats % 2 ^ 32,
    tempo := tempo, beatTime := 60 / tempo / (sub_beats : ℚ),
    timeTotal := 0, notes := [], channels := [] }

/-- Embeds `sequencer::add_inst(instrument, beat)`. -/
def sequencer.add_inst {ι : Type} (s : sequencer ι) (instrument : Option ι)
    (beat : List Char) : sequencer ι :=
  { s with channels := s.channels ++ [{ instrument := instrument, beat := beat }] }

/-- The `++currentBeat` step of `sequencer::update` with its wraparound:
increment (32-bit), then reset to `0` when the result reaches
`totalBeats`. -/
def nextBeat (totalBeats b : ℕ) : ℕ :=
  if totalBeats ≤ (b + 1) % 2 ^ 32 then 0 else (b + 1) % 2 ^ 32

/-- The trigger test `channel.beat[currentBeat] == L'x'` of
`sequencer::update`.  `std::basic_string::operator[]` out of bounds is
undefined behaviour in C++; the model totalises it with `List.getD`, whose
default `' '` is not the trigger character (the spec requires patterns of
length at least `totalBeats`, under which `getD` is plain indexing). -/
def trigAt (b : ℕ) (c : channel ι) : Bool :=
  c.beat.getD b ' ' == 'x'

/-- The note built by the trigger branch of `sequencer::update`: a
default-constructed `note` with the channel back-reference set, `active`
true and `id = 64`. -/
def mkSeqNote {ι : Type} (c : channel ι) : note ι :=
  { (note.init : note ι) with channel := c.instrument, active := true, id := 64 }

/-- The inner `for (auto& channel : channels)` loop of `sequencer::update`
at step index `b`: one note per channel whose pattern marks `b`, appended
in channel order. -/
def fireChannels {ι : Type} (chs : List (channel ι)) (b : ℕ) :
    List (note ι) :=
  (chs.filter (trigAt b)).map mkSeqNote

/-- One iteration of the `while (timeTotal >= beatTime)` loop of
`sequencer::update`: subtract `beatTime`, advance `currentBeat` with
wraparound, fire the channels marked at the new step. -/
def stepOnce {ι : Type} (s : sequencer ι) : sequencer ι :=
  let b := nextBeat s.totalBeats s.currentBeat
  { s with timeTotal := s.timeTotal - s.beatTime,
           currentBeat := b,
           notes := s.notes ++ fireChannels s.channels b }

/-- The `while (timeTotal >= beatTime)` loop of `sequencer::update`,
run with structural fuel.  `sequencer.update` supplies
`stepsIn timeTotal beatTime`, which (for `0 < beatTime`) is exactly the
number of iterations the C++ loop performs, so the fuel never runs out
while the loop condition holds.  The `0 < beatTime` conjunct reflects that
for `beatTime ≤ 0` the C++ loop either does not run (`timeTotal <
beatTime`) or never terminates (subtracting a non-positive `beatTime`
cannot make `timeTotal` drop below it); the model returns the state
unchanged in the latter, untaken regime. -/
def updateGo {ι : Type} : ℕ → sequencer ι → sequencer ι
  | 0, s => s
  | fuel + 1, s =>
    if 0 < s.beatTime ∧ s.beatTime ≤ s.timeTotal then
      updateGo fuel (stepOnce s)
    else s

/-- The number of iterations of the `while (timeTotal >= beatTime)` loop:
`⌊timeTotal / beatTime⌋`, clamped to `0` (meaningful for
`0 < beatTime`). -/
def stepsIn (timeTotal beatTime : ℚ) : ℕ :=
  ⌊timeTotal / beatTime⌋.toNat

/-- Embeds `sequencer::update(delta_time)`: clear the produced-notes
vector, accumulate `delta_time` into `timeTotal`, run the step loop, and
return `notes.size()` converted to `uint32_t` together with the post-state. -/
def sequencer.update {ι : Type} (s : sequencer ι) (delta_time : ℚ) :
    ℕ × sequencer ι :=
  let s1 : sequencer ι := { s with notes := [], timeTotal := s.timeTotal + delta_time }
  let s2 := updateGo (stepsIn s1.timeTotal s1.beatTime) s1
  (s2.notes.length % 2 ^ 32, s2)

/-- Iterating `nextBeat`, spec-side: the list of step indices newly entered
by `f` consecutive loop iterations starting from current step `b`
(the spec's "each step index newly entered, with wraparound"). -/
def enteredBeats (totalBeats : ℕ) : ℕ → ℕ → List ℕ
  | _, 0 => []
  | b, f + 1 => nextBeat totalBeats b :: enteredBeats totalBeats (nextBeat totalBeats b) f

/-- Repeatedly calling `update` with the sequencer's own `beatTime` as the
elapsed time, as in the spec's cycle-closure property (`beatTime` is
invariant under `update`, so every call passes the same duration). -/
def iterateUpdate {ι : Type} : sequencer ι → ℕ → sequencer ι
  | s, 0 => s
  | s, k + 1 => iterateUpdate (s.update s.beatTime).2 k

/-! ### Concrete test fixtures

Concrete envelope settings, notes, instruments and sequencer states used as
inputs of counterexamples and witnesses. -/

/-- Envelope with `sustainAmplitude = 2 > 1 = startAmplitude`. -/
def ce2adsr : adsr :=
  { attackTime := 1, decayTime := 1, sustainAmplitude := 2,
    releaseTime := 1, startAmplitude := 1 }

/-- Envelope with unit attack/decay/release and unit amplitudes. -/
def ce3adsr : adsr :=
  { attackTime := 1, decayTime := 1, sustainAmplitude := 1,
    releaseTime := 1, startAmplitude := 1 }

/-- Envelope with `0 < sustainAmplitude = 1/200 ≤ 1/100`. -/
def ce4adsr : adsr :=
  { attackTime := 1, decayTime := 1, sustainAmplitude := 1 / 200,
    releaseTime := 1, startAmplitude := 1 }

/-- An instrument dispatch (over the one-instrument type `Unit`) whose
`sound` always returns sample `1` and reports the note unfinished. -/
def oneSound : Unit → ℚ → note Unit → ℚ × Bool := fun _ _ _ => (1, false)

/-- An instrument dispatch whose `sound` always returns sample `5` and
reports the note finished. -/
def doneSound : Unit → ℚ → note Unit → ℚ × Bool := fun _ _ _ => (5, true)

/-- A pool note that is inactive but still carries an instrument. -/
def inactiveNote : note Unit :=
  { id := 0, «on» := 0, off := 0, active := false, channel := some () }

/-- A pool note with a null instrument pointer (and `active` set). -/
def orphanNote : note Unit :=
  { id := 3, «on» := 2, off := 1, active := true, channel := none }

/-- A sequencer state with `currentBeat = 0` whose residual clock
`timeTotal = 3/2` already exceeds `beatTime = 1` (two total steps, no
channels). -/
def ce8seq : sequencer Unit :=
  { beats := 1, subBeats := 2, currentBeat := 0, totalBeats := 2,
    tempo := 120, beatTime := 1, timeTotal := 3 / 2,
    notes := [], channels := [] }

/-- A sequencer state with `currentBeat = 0` and residual clock `0 <
beatTime = 1` (two total steps, no channels). -/
def w8seq : sequencer Unit :=
  { beats := 1, subBeats := 2, currentBeat := 0, totalBeats := 2,
    tempo := 120, beatTime := 1, timeTotal := 0,
    notes := [], channels := [] }

/-- A sequencer state with one channel whose four-step pattern triggers on
every step. -/
def w9seq : sequencer Unit :=
  { beats := 2, subBeats := 2, currentBeat := 0, totalBeats := 4,
    tempo := 120, beatTime := 1, timeTotal := 1 / 2,
    notes := [],
    channels := [{ instrument := some (), beat := ['x', 'x', 'x', 'x'] }] }

/-- A sequencer state with one channel whose two-step pattern triggers on
every step, residual clock `0`. -/
def w10seq : sequencer Unit :=
  { beats := 1, subBeats := 2, currentBeat := 0, totalBeats := 2,
    tempo := 120, beatTime := 1, timeTotal := 0,
    notes := [],
    channels := [{ instrument := some (), beat := ['x', 'x'] }] }

/-- The note `w10seq.update 1` fires on its single crossed step. -/
def w10note : note Unit :=
  { id := 64, «on» := 0, off := 0, active := true, channel := some () }

end synth

attribute [local semireducible] Rat.add Rat.mul Rat.sub Rat.inv

namespace synth

/-! ### Helper lemmas about the envelope ramp -/

/-- In the attack window (`lifeTime ≤ attackTime`, with a non-negative
decay so the later branches cannot fire), the ramp is the linear attack
value. -/
theorem adsr.ramp_of_le_attack (e : adsr) {L : ℚ} (h1 : L ≤ e.attackTime)
    (h2 : 0 ≤ e.decayTime) :
    e.ramp L = L / e.attackTime * e.startAmplitude := by
  simp only [adsr.ramp]
  rw [if_neg (by intro hc; linarith), if_neg (by intro hc; linarith [hc.1]),
    if_pos h1]

/-- Past `attackTime + decayTime` the ramp is exactly `sustainAmplitude`. -/
theorem adsr.ramp_of_past (e : adsr) {L : ℚ}
    (h : e.attackTime + e.decayTime < L) : e.ramp L = e.sustainAmplitude := by
  simp only [adsr.ramp]
  rw [if_pos h]

/-- With well-formed parameters the ramp never exceeds `startAmplitude`. -/
theorem adsr.ramp_le_start (e : adsr) (h1 : 0 ≤ e.attackTime)
    (h2 : 0 ≤ e.decayTime) (h3 : 0 ≤ e.sustainAmplitude)
    (h4 : e.sustainAmplitude ≤ e.startAmplitude) (L : ℚ) :
    e.ramp L ≤ e.startAmplitude := by
  have hs : 0 ≤ e.startAmplitude := le_trans h3 h4
  simp only [adsr.ramp]
  split_ifs with hc3 hc2 hc1
  · exact h4
  · have hD : 0 < e.decayTime := by linarith [hc2.1, hc2.2]
    have hu : 0 ≤ (L - e.attackTime) / e.decayTime :=
      div_nonneg (by linarith [hc2.1]) hD.le
    nlinarith [mul_nonneg hu (sub_nonneg.mpr h4)]
  · rcases eq_or_lt_of_le h1 with hA0 | hA0
    · rw [← hA0, div_zero, zero_mul]; exact hs
    · calc L / e.attackTime * e.startAmplitude
          ≤ 1 * e.startAmplitude :=
            mul_le_mul_of_nonneg_right ((div_le_one hA0).mpr hc1) hs
        _ = e.startAmplitude := one_mul _
  · exact hs

/-- With well-formed parameters the ramp of a non-negative age is
non-negative. -/
theorem adsr.ramp_nonneg (e : adsr) (h1 : 0 ≤ e.attackTime)
    (h2 : 0 ≤ e.decayTime) (h3 : 0 ≤ e.sustainAmplitude)
    (h4 : e.sustainAmplitude ≤ e.startAmplitude) {L : ℚ} (hL : 0 ≤ L) :
    0 ≤ e.ramp L := by
  have hs : 0 ≤ e.startAmplitude := le_trans h3 h4
  simp only [adsr.ramp]
  split_ifs with hc3 hc2 hc1
  · exact h3
  · have hD : 0 < e.decayTime := by linarith [hc2.1, hc2.2]
    have hu : (L - e.attackTime) / e.decayTime ≤ 1 :=
      (div_le_one hD).mpr (by linarith [hc2.2])
    have hu0 : 0 ≤ (L - e.attackTime) / e.decayTime :=
      div_nonneg (by linarith [hc2.1]) hD.le
    nlinarith [mul_nonneg (sub_nonneg.mpr hu) (sub_nonneg.mpr h4)]
  · exact mul_nonneg (div_nonneg hL h1) hs
  · exact le_refl 0

/-! ### C1 -/

/-- C1: for a note that has been released (`time_on ≤ time_off`, as after
`offTime ← timeGlobal` on a sounding note), sampling the envelope at
`timeGlobal = timeOff + releaseTime` returns exactly `0`, whatever the
other envelope parameters are.  The hypothesis `0 < releaseTime` excludes
only the division by zero `releaseTime = 0`, where the `double` code
produces NaN (also reported as `0` by the clamp) and exact arithmetic
cannot follow. -/
theorem C1_release_time_amplitude_zero (e : adsr) (time_on time_off : ℚ)
    (hoff : time_on ≤ time_off) (hrt : 0 < e.releaseTime) :
    e.get_amplitude (time_off + e.releaseTime) time_on time_off = 0 := by
  have hraw : e.raw_amplitude (time_off + e.releaseTime) time_on time_off = 0 := by
    simp only [adsr.raw_amplitude]
    rw [if_neg (not_lt.mpr hoff)]
    have hΔ : time_off + e.releaseTime - time_off = e.releaseTime := by ring
    rw [hΔ, div_self (ne_of_gt hrt)]
    ring
  simp only [adsr.get_amplitude, hraw]
  norm_num

/-- C1 witness: the default envelope, note held from `0` and released at
`1`. -/
theorem C1_witness :
    (0 : ℚ) ≤ 1 ∧ 0 < adsr.init.releaseTime ∧
      adsr.init.get_amplitude (1 + adsr.init.releaseTime) 0 1 = 0 :=
  ⟨by norm_num, by decide,
    C1_release_time_amplitude_zero adsr.init 0 1 (by norm_num) (by decide)⟩

/-! ### C2 -/

/-- C2 counterexample: with `sustainAmplitude = 2 > 1 = startAmplitude`,
a held note past attack and decay gets amplitude `2`, outside
`[0, startAmplitude] = [0, 1]` — so the range claim fails for arbitrary
parameter settings. -/
theorem C2_counterexample :
    ¬ (0 ≤ ce2adsr.get_amplitude 10 0 (-1) ∧
        ce2adsr.get_amplitude 10 0 (-1) ≤ ce2adsr.startAmplitude) := by
  decide

/-- C2 (amended): the lower bound `0 ≤ get_amplitude` holds always; the
upper bound `get_amplitude ≤ startAmplitude` holds provided the parameters
are well-formed (`attackTime, decayTime, releaseTime ≥ 0` and
`0 ≤ sustainAmplitude ≤ startAmplitude`) and the sample time is not before
the release time (`time_off ≤ time_global`). -/
theorem C2_amplitude_range (e : adsr) (time_global time_on time_off : ℚ)
    (h1 : 0 ≤ e.attackTime) (h2 : 0 ≤ e.decayTime)
    (h3 : 0 ≤ e.sustainAmplitude) (h4 : e.sustainAmplitude ≤ e.startAmplitude)
    (h5 : 0 ≤ e.releaseTime) (h6 : time_off ≤ time_global) :
    0 ≤ e.get_amplitude time_global time_on time_off ∧
      e.get_amplitude time_global time_on time_off ≤ e.startAmplitude := by
  have hs : 0 ≤ e.startAmplitude := le_trans h3 h4
  have hraw : e.raw_amplitude time_global time_on time_off ≤ e.startAmplitude := by
    simp only [adsr.raw_amplitude]
    split_ifs with hheld
    · exact e.ramp_le_start h1 h2 h3 h4 _
    · have hL : 0 ≤ time_off - time_on := by
        have := not_lt.mp hheld; linarith
      have hR0 : 0 ≤ e.ramp (time_off - time_on) :=
        e.ramp_nonneg h1 h2 h3 h4 hL
      have hR1 : e.ramp (time_off - time_on) ≤ e.startAmplitude :=
        e.ramp_le_start h1 h2 h3 h4 _
      have hq : 0 ≤ (time_global - time_off) / e.releaseTime :=
        div_nonneg (by linarith) h5
      nlinarith [mul_nonneg hq hR0]
  simp only [adsr.get_amplitude]
  split_ifs with hc
  · exact ⟨by linarith, hraw⟩
  · exact ⟨le_refl 0, hs⟩

/-- C2 witness: the default envelope on a held note. -/
theorem C2_witness :
    (0 : ℚ) ≤ adsr.init.attackTime ∧ 0 ≤ adsr.init.decayTime ∧
      0 ≤ adsr.init.sustainAmplitude ∧
      adsr.init.sustainAmplitude ≤ adsr.init.startAmplitude ∧
      0 ≤ adsr.init.releaseTime ∧ (0 : ℚ) ≤ 2 ∧
      0 ≤ adsr.init.get_amplitude 2 1 0 ∧
      adsr.init.get_amplitude 2 1 0 ≤ adsr.init.startAmplitude :=
  ⟨by decide, by decide, by decide, by decide, by decide, by norm_num,
    C2_amplitude_range adsr.init 2 1 0 (by decide) (by decide) (by decide)
      (by decide) (by decide) (by norm_num)⟩

/-! ### C3 -/

/-- C3 counterexample: with attack time `1` and start amplitude `1` on a
held note, the amplitude over ages in `[0, attackTime]` is not an affine
function of the age: it is `0` at ages `0` and `1/100` (the clamp) but
`1/50` at age `1/50`. -/
theorem C3_counterexample :
    ¬ ∃ a b : ℚ, ∀ age : ℚ, 0 ≤ age → age ≤ ce3adsr.attackTime →
        ce3adsr.get_amplitude age 0 (-1) = a * age + b := by
  rintro ⟨a, b, h⟩
  have h0 := h 0 (by norm_num) (by decide)
  have h1 := h (1 / 100) (by norm_num) (by decide)
  have h2 := h (1 / 50) (by norm_num) (by decide)
  rw [show ce3adsr.get_amplitude 0 0 (-1) = 0 by decide] at h0
  rw [show ce3adsr.get_amplitude (1 / 100) 0 (-1) = 0 by decide] at h1
  rw [show ce3adsr.get_amplitude (1 / 50) 0 (-1) = 1 / 50 by decide] at h2
  ring_nf at h0 h1 h2
  linarith

/-- C3 (amended): for a held note with age in `[0, attackTime]` (positive
attack, non-negative decay), the amplitude is the `0.01`-clamp of the
linear ramp `age / attackTime * startAmplitude`; at `age = attackTime` it
equals `startAmplitude` exactly, provided `startAmplitude` clears the
clamp threshold. -/
theorem C3_attack_clamped_linear (e : adsr) (time_on time_off age : ℚ)
    (hheld : time_on > time_off) (hage0 : 0 ≤ age)
    (hage1 : age ≤ e.attackTime) (hA : 0 < e.attackTime)
    (hD : 0 ≤ e.decayTime) :
    e.get_amplitude (time_on + age) time_on time_off =
      (if age / e.attackTime * e.startAmplitude > 1 / 100
        then age / e.attackTime * e.startAmplitude else 0) ∧
    (1 / 100 < e.startAmplitude →
      e.get_amplitude (time_on + e.attackTime) time_on time_off =
        e.startAmplitude) := by
  constructor
  · have hraw : e.raw_amplitude (time_on + age) time_on time_off =
        age / e.attackTime * e.startAmplitude := by
      simp only [adsr.raw_amplitude]
      rw [if_pos hheld, show time_on + age - time_on = age by ring,
        e.ramp_of_le_attack hage1 hD]
    simp only [adsr.get_amplitude, hraw]
  · intro hstart
    have hraw : e.raw_amplitude (time_on + e.attackTime) time_on time_off =
        e.startAmplitude := by
      simp only [adsr.raw_amplitude]
      rw [if_pos hheld,
        show time_on + e.attackTime - time_on = e.attackTime by ring,
        e.ramp_of_le_attack (le_refl _) hD, div_self (ne_of_gt hA), one_mul]
    simp only [adsr.get_amplitude, hraw]
    rw [if_pos hstart]

/-- C3 witness: the default envelope, held note, age `= attackTime =
1/10`. -/
theorem C3_witness :
    (0 : ℚ) > -1 ∧ (0 : ℚ) ≤ 1 / 10 ∧ (1 : ℚ) / 10 ≤ adsr.init.attackTime ∧
      0 < adsr.init.attackTime ∧ 0 ≤ adsr.init.decayTime ∧
      (adsr.init.get_amplitude (0 + 1 / 10) 0 (-1) =
        (if (1 : ℚ) / 10 / adsr.init.attackTime * adsr.init.startAmplitude > 1 / 100
          then (1 : ℚ) / 10 / adsr.init.attackTime * adsr.init.startAmplitude
          else 0) ∧
      (1 / 100 < adsr.init.startAmplitude →
        adsr.init.get_amplitude (0 + adsr.init.attackTime) 0 (-1) =
          adsr.init.startAmplitude)) :=
  ⟨by norm_num, by norm_num, by decide, by decide, by decide,
    C3_attack_clamped_linear adsr.init 0 (-1) (1 / 10) (by norm_num)
      (by norm_num) (by decide) (by decide) (by decide)⟩

/-! ### C4 -/

/-- C4 counterexample: with `sustainAmplitude = 1/200`, a held note past
`attackTime + decayTime` gets amplitude `0`, not `sustainAmplitude` — the
clamp keeps sub-threshold sustain levels from being returned exactly. -/
theorem C4_counterexample :
    ce4adsr.get_amplitude 10 0 (-1) ≠ ce4adsr.sustainAmplitude ∧
      (0 : ℚ) > -1 ∧ ce4adsr.attackTime + ce4adsr.decayTime < 10 - 0 := by
  refine ⟨?_, by norm_num, by decide⟩
  decide

/-- C4 (amended): for a held note past `attackTime + decayTime` the
amplitude is `sustainAmplitude` when `sustainAmplitude > 0.01`, and `0`
otherwise (the clamp). -/
theorem C4_sustain_clamped (e : adsr) (time_global time_on time_off : ℚ)
    (hheld : time_on > time_off)
    (hpast : e.attackTime + e.decayTime < time_global - time_on) :
    e.get_amplitude time_global time_on time_off =
      if e.sustainAmplitude > 1 / 100 then e.sustainAmplitude else 0 := by
  have hraw : e.raw_amplitude time_global time_on time_off =
      e.sustainAmplitude := by
    simp only [adsr.raw_amplitude]
    rw [if_pos hheld, e.ramp_of_past hpast]
  simp only [adsr.get_amplitude, hraw]

/-- C4 witness: the default envelope, held note of age `1`. -/
theorem C4_witness :
    (0 : ℚ) > -1 ∧ adsr.init.attackTime + adsr.init.decayTime < 1 - 0 ∧
      adsr.init.get_amplitude 1 0 (-1) =
        (if adsr.init.sustainAmplitude > 1 / 100
          then adsr.init.sustainAmplitude else 0) :=
  ⟨by norm_num, by decide,
    C4_sustain_clamped adsr.init 1 0 (-1) (by norm_num) (by decide)⟩

/-! ### C5 -/

/-- C5 counterexample: a pool holding a single note with `active == false`
but a non-null instrument still yields a nonzero mix — `base::sample` never
consults the `active` flag when deciding whether to invoke the
instrument. -/
theorem C5_counterexample :
    inactiveNote.active = false ∧ inactiveNote.channel ≠ none ∧
      (sample oneSound 0 [inactiveNote]).1 ≠ 0 := by
  refine ⟨rfl, by decide, by decide⟩

/-- C5 (amended): the sum returned by `base::sample` accumulates the
rendered sample of every note with a non-null instrument reference,
regardless of the note's `active` flag (inactive notes are only removed
after the pass). -/
theorem C5_sample_sums_instrumented_notes {ι : Type}
    (sound : ι → ℚ → note ι → ℚ × Bool) (time_global : ℚ)
    (notes : List (note ι)) :
    (sample sound time_global notes).1 =
      (notes.filterMap
        (fun n => n.channel.map (fun i => (sound i time_global n).1))).sum := by
  induction notes with
  | nil => rfl
  | cons n rest ih =>
    simp only [sample, List.map_cons, List.sum_cons, List.filterMap_cons] at ih ⊢
    cases hc : n.channel with
    | none => simpa [renderNote, hc] using ih
    | some i => simpa [renderNote, hc] using ih

/-! ### C6 -/

/-- C6: a note with a null instrument reference contributes exactly `0` to
the mix, is left completely unchanged by the loop body (in particular it is
never marked finished — its `active` flag is untouched), and the output sum
over a pool starting with such a note equals the sum over the rest of the
pool. -/
theorem C6_null_channel_silent {ι : Type}
    (sound : ι → ℚ → note ι → ℚ × Bool) (time_global : ℚ) (n : note ι)
    (rest : List (note ι)) (h : n.channel = none) :
    renderNote sound time_global n = (0, n) ∧
      (sample sound time_global (n :: rest)).1 =
        (sample sound time_global rest).1 := by
  constructor
  · simp [renderNote, h]
  · simp [sample, renderNote, h]

/-- C6 witness: a null-channel note in front of an empty pool, with a
dispatch that would report every note finished if it were ever invoked. -/
theorem C6_witness :
    orphanNote.channel = none ∧
      (renderNote doneSound 0 orphanNote = (0, orphanNote) ∧
        (sample doneSound 0 [orphanNote]).1 = (sample doneSound 0 []).1) :=
  ⟨rfl, C6_null_channel_silent doneSound 0 orphanNote [] rfl⟩

/-! ### C7 -/

/-- C7: after `base::sample` returns, every note remaining in the pool has
`active == true` — `remove_if` drops all notes marked inactive during or
before the pass. -/
theorem C7_remaining_notes_active {ι : Type}
    (sound : ι → ℚ → note ι → ℚ × Bool) (time_global : ℚ)
    (notes : List (note ι)) :
    ((sample sound time_global notes).2).all (fun n => n.active) = true := by
  simp only [sample, List.all_eq_true]
  intro n hn
  exact (List.mem_filter.mp hn).2

/-! ### Sequencer loop characterisation -/

/-- With `0 < beatTime`, fuel `stepsIn timeTotal beatTime` is exactly the
number of iterations the `while (timeTotal >= beatTime)` loop performs, so
the fuelled loop equals that many iterations of the loop body. -/
theorem updateGo_eq_iterate {ι : Type} (f : ℕ) :
    ∀ s : sequencer ι, 0 < s.beatTime →
      f = stepsIn s.timeTotal s.beatTime →
      updateGo f s = stepOnce^[f] s := by
  induction f with
  | zero => intro s _ _; rfl
  | succ f ih =>
    intro s hbt hf
    have hfl : ⌊s.timeTotal / s.beatTime⌋ = (f : ℤ) + 1 := by
      simp only [stepsIn] at hf
      omega
    have hge : s.beatTime ≤ s.timeTotal := by
      have h1 : (1 : ℚ) ≤ s.timeTotal / s.beatTime := by
        exact_mod_cast Int.le_floor.mp (by omega : (1 : ℤ) ≤ ⌊s.timeTotal / s.beatTime⌋)
      exact (one_le_div hbt).mp h1
    rw [updateGo, if_pos ⟨hbt, hge⟩, Function.iterate_succ_apply]
    apply ih
    · simpa [stepOnce] using hbt
    · simp only [stepsIn, stepOnce]
      rw [sub_div, div_self (ne_of_gt hbt),
        show s.timeTotal / s.beatTime - 1
            = s.timeTotal / s.beatTime - ((1 : ℤ) : ℚ) by norm_num,
        Int.floor_sub_int]
      omega

/-- State reached by `f` iterations of the loop body: the scalar meter
fields are untouched, the clock drops by `f · beatTime`, the current step
advances by `f` wrapped increments, and the produced notes are one batch of
channel firings per entered step, in order. -/
theorem stepOnce_iterate_spec {ι : Type} (f : ℕ) :
    ∀ s : sequencer ι,
      (stepOnce^[f] s).beatTime = s.beatTime ∧
      (stepOnce^[f] s).totalBeats = s.totalBeats ∧
      (stepOnce^[f] s).channels = s.channels ∧
      (stepOnce^[f] s).timeTotal = s.timeTotal - f * s.beatTime ∧
      (stepOnce^[f] s).currentBeat = (nextBeat s.totalBeats)^[f] s.currentBeat ∧
      (stepOnce^[f] s).notes = s.notes ++
        (enteredBeats s.totalBeats s.currentBeat f).flatMap
          (fireChannels s.channels) := by
  induction f with
  | zero => intro s; simp [enteredBeats]
  | succ f ih =>
    intro s
    obtain ⟨h1, h2, h3, h4, h5, h6⟩ := ih (stepOnce s)
    rw [Function.iterate_succ_apply]
    refine ⟨?_, ?_, ?_, ?_, ?_, ?_⟩
    · rw [h1]; rfl
    · rw [h2]; rfl
    · rw [h3]; rfl
    · rw [h4]; simp only [stepOnce]; push_cast; ring
    · rw [h5, Function.iterate_succ_apply]; rfl
    · rw [h6]
      simp only [stepOnce, enteredBeats, List.flatMap_cons, List.append_assoc]

/-- For `0 < beatTime`, one `update` call is: clear the produced notes,
advance the clock, then run `stepsIn` loop iterations. -/
theorem update_eq_iterate {ι : Type} (s : sequencer ι) (delta_time : ℚ)
    (hbt : 0 < s.beatTime) :
    (s.update delta_time).2 = stepOnce^[stepsIn (s.timeTotal + delta_time) s.beatTime]
      { s with notes := [], timeTotal := s.timeTotal + delta_time } := by
  simp only [sequencer.update]
  exact updateGo_eq_iterate _ _ hbt rfl

/-- One channel pass fires `countP` of the trigger test many notes. -/
theorem length_fireChannels {ι : Type} (chs : List (channel ι)) (b : ℕ) :
    (fireChannels chs b).length = chs.countP (trigAt b) := by
  rw [fireChannels, List.length_map]
  exact (List.countP_eq_length_filter _ _).symm

/-- Length of a `flatMap` as the sum of the per-element lengths. -/
theorem length_flatMap_eq_sum {α β : Type} (l : List α) (g : α → List β) :
    (l.flatMap g).length = (l.map fun a => (g a).length).sum := by
  induction l with
  | nil => rfl
  | cons a l ih => simp [List.flatMap_cons, ih]

/-- A call `update beatTime` from a state whose residual clock satisfies
`0 ≤ timeTotal < beatTime` crosses exactly one step: the current step takes
one wrapped increment, the residual clock and the meter fields are
restored. -/
theorem update_step_fields {ι : Type} (s : sequencer ι)
    (h0 : 0 ≤ s.timeTotal) (h1 : s.timeTotal < s.beatTime) :
    (s.update s.beatTime).2.currentBeat = nextBeat s.totalBeats s.currentBeat ∧
    (s.update s.beatTime).2.timeTotal = s.timeTotal ∧
    (s.update s.beatTime).2.beatTime = s.beatTime ∧
    (s.update s.beatTime).2.totalBeats = s.totalBeats := by
  have hbt : 0 < s.beatTime := lt_of_le_of_lt h0 h1
  have hz : ⌊s.timeTotal / s.beatTime⌋ = 0 := by
    rw [Int.floor_eq_zero_iff]
    exact ⟨div_nonneg h0 hbt.le, (div_lt_one hbt).mpr h1⟩
  have hsteps : stepsIn (s.timeTotal + s.beatTime) s.beatTime = 1 := by
    simp only [stepsIn]
    rw [add_div, div_self (ne_of_gt hbt),
      show (1 : ℚ) = ((1 : ℤ) : ℚ) by norm_num, Int.floor_add_int, hz]
    rfl
  have hit := update_eq_iterate s s.beatTime hbt
  rw [hsteps, Function.iterate_one] at hit
  rw [hit]
  refine ⟨rfl, ?_, rfl, rfl⟩
  show s.timeTotal + s.beatTime - s.beatTime = s.timeTotal
  ring

/-! ### C8 -/

/-- C8 counterexample: a sequencer state with `currentBeat == 0` whose
residual clock already holds one and a half step durations; after
`totalBeats` calls of `update(beatTime)` the sequencer is at step `1`, not
`0`, and the residual clock has changed. -/
theorem C8_counterexample :
    ce8seq.currentBeat = 0 ∧
      (iterateUpdate ce8seq ce8seq.totalBeats).currentBeat ≠ 0 ∧
      (iterateUpdate ce8seq ce8seq.totalBeats).timeTotal ≠ ce8seq.timeTotal := by
  refine ⟨rfl, by decide, by decide⟩

/-- Auxiliary induction for C8: from a state whose residual clock satisfies
`0 ≤ timeTotal < beatTime`, `k ≥ 1` calls of `update(beatTime)` that end
exactly at the wraparound (`currentBeat + k = totalBeats`, with `totalBeats`
a 32-bit value) land on step `0` with the residual clock restored. -/
theorem iterateUpdate_cycle_aux {ι : Type} (k : ℕ) :
    ∀ s : sequencer ι, 1 ≤ k → 0 ≤ s.timeTotal → s.timeTotal < s.beatTime →
      s.totalBeats < 2 ^ 32 → s.currentBeat + k = s.totalBeats →
      (iterateUpdate s k).currentBeat = 0 ∧
        (iterateUpdate s k).timeTotal = s.timeTotal := by
  induction k with
  | zero => intro s hk; exact absurd hk (by decide)
  | succ k ih =>
    intro s _ h0 h1 h2 hsum
    obtain ⟨hc, ht, hb, htot⟩ := update_step_fields s h0 h1
    have hstep : iterateUpdate s (k + 1) = iterateUpdate (s.update s.beatTime).2 k := rfl
    rcases Nat.eq_zero_or_pos k with hk0 | hk1
    · subst hk0
      rw [hstep]
      refine ⟨?_, ht⟩
      rw [show iterateUpdate (s.update s.beatTime).2 0 = (s.update s.beatTime).2 from rfl, hc]
      simp only [nextBeat]
      rw [Nat.mod_eq_of_lt (by omega), if_pos (by omega)]
    · rw [hstep]
      have hnext : (s.update s.beatTime).2.currentBeat + k = (s.update s.beatTime).2.totalBeats := by
        rw [hc, htot]
        simp only [nextBeat]
        rw [Nat.mod_eq_of_lt (by omega), if_neg (by omega)]
        omega
      have hres := ih (s.update s.beatTime).2 hk1 (by rw [ht]; exact h0)
        (by rw [ht, hb]; exact h1) (by rw [htot]; exact h2) hnext
      exact ⟨hres.1, hres.2.trans ht⟩

/-- C8 (amended): starting from any state with `currentBeat == 0` whose
residual clock satisfies `0 ≤ timeTotal < beatTime` (as in a freshly
constructed sequencer) and whose `totalBeats` is a 32-bit value, calling
`update(beatTime)` exactly `totalBeats` times returns the sequencer to
`currentBeat == 0` with `timeTotal` equal to its starting value. -/
theorem C8_cycle_closure {ι : Type} (s : sequencer ι)
    (hc : s.currentBeat = 0) (h0 : 0 ≤ s.timeTotal)
    (h1 : s.timeTotal < s.beatTime) (h2 : s.totalBeats < 2 ^ 32) :
    (iterateUpdate s s.totalBeats).currentBeat = 0 ∧
      (iterateUpdate s s.totalBeats).timeTotal = s.timeTotal := by
  rcases Nat.eq_zero_or_pos s.totalBeats with h | h
  · rw [h]
    exact ⟨hc, rfl⟩
  · exact iterateUpdate_cycle_aux s.totalBeats s h h0 h1 h2 (by omega)

/-- C8 witness: a fresh two-step sequencer cycles back to step `0` after
two calls. -/
theorem C8_witness :
    w8seq.currentBeat = 0 ∧ (0 : ℚ) ≤ w8seq.timeTotal ∧
      w8seq.timeTotal < w8seq.beatTime ∧ w8seq.totalBeats < 2 ^ 32 ∧
      ((iterateUpdate w8seq w8seq.totalBeats).currentBeat = 0 ∧
        (iterateUpdate w8seq w8seq.totalBeats).timeTotal = w8seq.timeTotal) :=
  ⟨rfl, by decide, by decide, by decide,
    C8_cycle_closure w8seq rfl (by decide) (by decide) (by decide)⟩

/-! ### C9 -/

/-- C9: for `0 < beatTime` (any constructed sequencer with positive tempo),
`update(deltaTime)` returns exactly the number of notes triggered during
the call — one note per channel whose pattern marks each newly entered step
(wrapping at `totalBeats`), over the `stepsIn` steps crossed while the
accumulated clock stays at least `beatTime` (possibly zero, possibly
several) — and the produced note list is exactly the per-step channel
firings in order.  The `% 2 ^ 32` is the `uint32_t` conversion of
`notes.size()`. -/
theorem C9_update_trigger_count {ι : Type} (s : sequencer ι)
    (delta_time : ℚ) (hbt : 0 < s.beatTime) :
    (s.update delta_time).1 =
      ((enteredBeats s.totalBeats s.currentBeat
          (stepsIn (s.timeTotal + delta_time) s.beatTime)).map
        (fun b => s.channels.countP (trigAt b))).sum % 2 ^ 32 ∧
    (s.update delta_time).2.notes =
      (enteredBeats s.totalBeats s.currentBeat
          (stepsIn (s.timeTotal + delta_time) s.beatTime)).flatMap
        (fireChannels s.channels) := by
  have hit := update_eq_iterate s delta_time hbt
  obtain ⟨-, -, -, -, -, hnotes⟩ :=
    stepOnce_iterate_spec (stepsIn (s.timeTotal + delta_time) s.beatTime)
      { s with notes := [], timeTotal := s.timeTotal + delta_time }
  have hnotes2 : (s.update delta_time).2.notes =
      (enteredBeats s.totalBeats s.currentBeat
          (stepsIn (s.timeTotal + delta_time) s.beatTime)).flatMap
        (fireChannels s.channels) := by
    rw [hit, hnotes]
    rfl
  refine ⟨?_, hnotes2⟩
  have hfst : (s.update delta_time).1 = (s.update delta_time).2.notes.length % 2 ^ 32 := rfl
  rw [hfst, hnotes2, length_flatMap_eq_sum]
  simp only [length_fireChannels]

/-- C9 witness: a four-step sequencer with an all-trigger channel, fed
`5/2` step durations — two and a half steps cross, three notes fire. -/
theorem C9_witness :
    (0 : ℚ) < w9seq.beatTime ∧ (w9seq.update (5 / 2)).1 = 3 ∧
      ((w9seq.update (5 / 2)).1 =
        ((enteredBeats w9seq.totalBeats w9seq.currentBeat
            (stepsIn (w9seq.timeTotal + 5 / 2) w9seq.beatTime)).map
          (fun b => w9seq.channels.countP (trigAt b))).sum % 2 ^ 32 ∧
      (w9seq.update (5 / 2)).2.notes =
        (enteredBeats w9seq.totalBeats w9seq.currentBeat
            (stepsIn (w9seq.timeTotal + 5 / 2) w9seq.beatTime)).flatMap
          (fireChannels w9seq.channels)) :=
  ⟨by decide, by decide, C9_update_trigger_count w9seq (5 / 2) (by decide)⟩

/-! ### C10 -/

/-- Every note found in the loop's note vector is either one it started
with or a channel firing. -/
theorem mem_updateGo_notes {ι : Type} (f : ℕ) :
    ∀ (s : sequencer ι) (n : note ι), n ∈ (updateGo f s).notes →
      n ∈ s.notes ∨ ∃ c ∈ s.channels, n = mkSeqNote c := by
  induction f with
  | zero => intro s n h; exact Or.inl h
  | succ f ih =>
    intro s n h
    rw [updateGo] at h
    split_ifs at h with hg
    · rcases ih (stepOnce s) n h with hmem | ⟨c, hcmem, hn⟩
      · simp only [stepOnce, List.mem_append] at hmem
        rcases hmem with hmem | hmem
        · exact Or.inl hmem
        · simp only [fireChannels, List.mem_map] at hmem
          obtain ⟨c, hcmem, hn⟩ := hmem
          exact Or.inr ⟨c, List.mem_of_mem_filter hcmem, hn.symm⟩
      · exact Or.inr ⟨c, hcmem, hn⟩
    · exact Or.inl h

/-- C10: every note produced by `sequencer::update` keeps the
default-constructed timestamps `on == 0` and `off == 0` — only the channel
back-reference, `active = true` and `id = 64` are set — so the envelope's
held-note condition `timeOn > timeOff` is false for it and it renders as
already released. -/
theorem C10_sequencer_note_fields {ι : Type} (s : sequencer ι)
    (delta_time : ℚ) (n : note ι)
    (h : n ∈ ((s.update delta_time).2).notes) :
    n.«on» = 0 ∧ n.off = 0 ∧ n.active = true ∧ n.id = 64 ∧
      (∃ c ∈ s.channels, n.channel = c.instrument) ∧ ¬ n.«on» > n.off := by
  have h' : n ∈ (updateGo (stepsIn (s.timeTotal + delta_time) s.beatTime)
      { s with notes := [], timeTotal := s.timeTotal + delta_time }).notes := h
  rcases mem_updateGo_notes _ _ _ h' with hmem | ⟨c, hcmem, hn⟩
  · exact absurd hmem (List.not_mem_nil n)
  · subst hn
    exact ⟨rfl, rfl, rfl, rfl, ⟨c, hcmem, rfl⟩, lt_irrefl 0⟩

/-- C10 witness: the note fired by the two-step sequencer on its first
crossed step. -/
theorem C10_witness :
    w10note ∈ ((w10seq.update 1).2).notes ∧
      (w10note.«on» = 0 ∧ w10note.off = 0 ∧ w10note.active = true ∧
        w10note.id = 64 ∧
        (∃ c ∈ w10seq.channels, w10note.channel = c.instrument) ∧
        ¬ w10note.«on» > w10note.off) :=
  ⟨by decide, C10_sequencer_note_fields w10seq 1 w10note (by decide)⟩

end synth
